import Mathlib

/-!
Verification of `src/splice_file_organizer.cpp` (Splice Sample Organizer).

The program is embedded shallowly:

* C++ `std::string` values are byte strings (`List Nat`);
* `std::filesystem::path` values are segment lists (`List` of byte strings);
* the filesystem is a map from paths to optional file contents, together
  with a failure predicate modelling paths on which filesystem primitives
  throw `fs::filesystem_error`;
* the global mutable state of the program (the filesystem, the
  `processed_files` set, the stdout/stderr log and the trace of issued
  filesystem operations) is threaded explicitly through a `RunState`.

Every definition mirrors a function of the C++ source; line numbers in
doc comments refer to `src/splice_file_organizer.cpp`.
-/

namespace Splice

/-- A C++ `std::string`: a list of byte values. -/
abbrev ByteStr := List Nat

/-- Build a byte string from characters (each character's code point,
which for the ASCII literals of the source is its byte value). -/
def str (cs : List Char) : ByteStr := cs.map (fun c => c.toNat)

/-- Models `::tolower` on one byte in the C locale (lines 73-74): bytes 65-90
(`A`-`Z`) are shifted to 97-122 (`a`-`z`); every other byte is unchanged. -/
def lowerByte (b : Nat) : Nat := if 65 ≤ b ∧ b ≤ 90 then b + 32 else b

/-- Models `to_lower` (lines 71-76): lowercase every byte of the string. -/
def to_lower (s : ByteStr) : ByteStr := s.map lowerByte

/-- Whether `pat` occurs at the very start of `s`. -/
def leadsWith : ByteStr → ByteStr → Bool
  | [], _ => true
  | _ :: _, [] => false
  | a :: as, b :: bs => a == b && leadsWith as bs

/-- Models `s.find(pat) != std::string::npos`: `pat` occurs as a contiguous
substring of `s` (at any position, the empty pattern always occurs). -/
def occursIn (pat : ByteStr) : ByteStr → Bool
  | [] => leadsWith pat []
  | b :: rest => leadsWith pat (b :: rest) || occursIn pat rest

/-- A `std::filesystem::path`, as its list of segments. -/
abbrev Path := List ByteStr

/-- Models `path::filename()`: the last segment (empty for the empty path). -/
def fileName (p : Path) : ByteStr := p.getLastD []

/-- Index of the last `.` (byte 46) in a filename, if any. -/
def lastDotIdxAux : ByteStr → Nat → Option Nat → Option Nat
  | [], _, acc => acc
  | b :: rest, i, acc => lastDotIdxAux rest (i + 1) (if b == 46 then some i else acc)

def lastDotIdx (name : ByteStr) : Option Nat := lastDotIdxAux name 0 none

/-- Models `path::extension()` of a filename: the substring from the last dot
(inclusive); empty when there is no dot, when the only dot starts the
name (dotfiles), or for the special names `.` and `..`. -/
def extension (name : ByteStr) : ByteStr :=
  if name = [46] ∨ name = [46, 46] then []
  else
    match lastDotIdx name with
    | none => []
    | some 0 => []
    | some i => name.drop i

/-- Models `path::stem()` of a filename: what `extension` leaves behind. -/
def stem (name : ByteStr) : ByteStr :=
  if name = [46] ∨ name = [46, 46] then name
  else
    match lastDotIdx name with
    | none => name
    | some 0 => name
    | some i => name.take i

/-- Models `is_audio_file` (lines 79-82): the lowercased extension is exactly
`.wav` or `.mp3`. -/
def is_audio_file (p : Path) : Bool :=
  let ext := to_lower (extension (fileName p))
  ext == str ['.', 'w', 'a', 'v'] || ext == str ['.', 'm', 'p', '3']

/-- Decimal digits of a natural number, as bytes (`std::to_string` on the
non-negative loop index of line 183). -/
def natDigits (n : Nat) : ByteStr :=
  if n < 10 then [48 + n]
  else natDigits (n / 10) ++ [48 + n % 10]
decreasing_by exact Nat.div_lt_self (by omega) (by omega)

/-- Models `append_index_to_filename` (lines 91-95): `stem_<index><extension>`. -/
def append_index_to_filename (filename : ByteStr) (index : Nat) : ByteStr :=
  stem filename ++ [95] ++ natDigits index ++ extension filename

/-- The string literal `"808"` of line 120. -/
def pat808 : ByteStr := str ['8', '0', '8']

def patSnare : ByteStr := str ['s', 'n', 'a', 'r', 'e']
def patSnrA : ByteStr := str ['_', 's', 'n', 'r']
def patSnrB : ByteStr := str ['s', 'n', 'r', '_']
def patKick : ByteStr := str ['k', 'i', 'c', 'k']
def patKckA : ByteStr := str ['_', 'k', 'c', 'k']
def patKckB : ByteStr := str ['k', 'c', 'k', '_']
def patClap : ByteStr := str ['c', 'l', 'a', 'p']
def patClpA : ByteStr := str ['_', 'c', 'l', 'p']
def patClpB : ByteStr := str ['c', 'l', 'p', '_']
def patHat : ByteStr := str ['h', 'a', 't']
def patHtA : ByteStr := str ['h', 't', '_']
def patHtB : ByteStr := str ['_', 'h', 't']
def patDrum : ByteStr := str ['d', 'r', 'u', 'm']
def patDrmA : ByteStr := str ['_', 'd', 'r', 'm']
def patDrmB : ByteStr := str ['d', 'r', 'm', '_']
def patLoop : ByteStr := str ['l', 'o', 'o', 'p']

def grpDrums : ByteStr := str ['D', 'r', 'u', 'm', 's']
def grpOther : ByteStr := str ['O', 't', 'h', 'e', 'r']
def sub808 : ByteStr := str ['8', '0', '8']
def subSnare : ByteStr := str ['S', 'n', 'a', 'r', 'e']
def subKick : ByteStr := str ['K', 'i', 'c', 'k']
def subClap : ByteStr := str ['C', 'l', 'a', 'p']
def subHat : ByteStr := str ['H', 'a', 't']
def subOther : ByteStr := str ['O', 't', 'h', 'e', 'r']
def subLoop : ByteStr := str ['L', 'o', 'o', 'p']

/-- The classification chain of `organize_file` (lines 116-162), factored
as the category pair it selects: the filename is lowercased (line 116)
and the eight substring rules are tried in source order, first match
winning, with `Other/Other` as the final `else`. -/
def classify (sourceFilename : ByteStr) : ByteStr × ByteStr :=
  let filename := to_lower sourceFilename
  if occursIn pat808 filename then (grpDrums, sub808)
  else if occursIn patSnare filename || occursIn patSnrA filename ||
      occursIn patSnrB filename then (grpDrums, subSnare)
  else if occursIn patKick filename || occursIn patKckA filename ||
      occursIn patKckB filename then (grpDrums, subKick)
  else if occursIn patClap filename || occursIn patClpA filename ||
      occursIn patClpB filename then (grpDrums, subClap)
  else if occursIn patHat filename || occursIn patHtA filename ||
      occursIn patHtB filename then (grpDrums, subHat)
  else if occursIn patDrum filename || occursIn patDrmA filename ||
      occursIn patDrmB filename then (grpDrums, subOther)
  else if occursIn patLoop filename then (grpOther, subLoop)
  else (grpOther, subOther)

/-- The candidate destination path built by lines 117-162:
`destination / group / subgroup / <original filename>`. -/
def dest_path (destination : Path) (sourceFilename : ByteStr) : Path :=
  destination ++ [(classify sourceFilename).1, (classify sourceFilename).2, sourceFilename]

/-- An `fs::filesystem_error` thrown by one of the primitives the program
calls, tagged with the operation and path that failed. -/
inductive FsErr where
  | mkdirFail (p : Path)
  | copyFail (dst : Path)
  | copyExists (dst : Path)
  | copySrcMissing (src : Path)
  | removeFail (p : Path)
deriving DecidableEq

/-- One line group of console output: the `Request:`/`Moved:` blocks of
lines 103-107 and 167-171, the `Error copying file` line 198, the
`Error processing file system` line 214 and the final success message of
line 264. -/
inductive LogEvent where
  | request (src dst : Path)
  | moved (src dst : Path)
  | errorCopying (e : FsErr)
  | errorTraversal (msg : ByteStr)
  | successMsg
deriving DecidableEq

/-- A filesystem operation actually performed (recorded only when the
underlying primitive succeeds). -/
inductive FsOp where
  | copy (src dst : Path)
  | remove (p : Path)
  | mkdirs (p : Path)
deriving DecidableEq

/-- The filesystem: file contents by path (`none` = no file there), plus
a static fault model — `failAt p` means primitives writing at `p` throw. -/
structure FsState where
  contents : Path → Option Nat
  failAt : Path → Bool

/-- Models `fs::exists` on a file path. -/
def FsState.existsAt (fs : FsState) (p : Path) : Bool := (fs.contents p).isSome

/-- Point update of the contents map. -/
def setContents (fs : FsState) (p : Path) (c : Option Nat) : FsState :=
  { fs with contents := fun q => if q = p then c else fs.contents q }

/-- The whole mutable state of a run: the filesystem, the global
`processed_files` set (line 68), the console log, and the trace of
performed filesystem operations. -/
structure RunState where
  fs : FsState
  processed_files : List ByteStr
  log : List LogEvent
  trace : List FsOp

def pushLog (st : RunState) (e : LogEvent) : RunState :=
  { st with log := st.log ++ [e] }

def pushOp (st : RunState) (op : FsOp) : RunState :=
  { st with trace := st.trace ++ [op] }

@[simp] lemma pushLog_fs (st : RunState) (e : LogEvent) : (pushLog st e).fs = st.fs := rfl

@[simp] lemma pushLog_processed (st : RunState) (e : LogEvent) :
    (pushLog st e).processed_files = st.processed_files := rfl

@[simp] lemma pushLog_trace (st : RunState) (e : LogEvent) :
    (pushLog st e).trace = st.trace := rfl

@[simp] lemma pushOp_fs (st : RunState) (op : FsOp) : (pushOp st op).fs = st.fs := rfl

@[simp] lemma pushOp_processed (st : RunState) (op : FsOp) :
    (pushOp st op).processed_files = st.processed_files := rfl

@[simp] lemma pushOp_log (st : RunState) (op : FsOp) : (pushOp st op).log = st.log := rfl

@[simp] lemma pushOp_trace (st : RunState) (op : FsOp) :
    (pushOp st op).trace = st.trace ++ [op] := rfl

@[simp] lemma pushLog_log (st : RunState) (e : LogEvent) :
    (pushLog st e).log = st.log ++ [e] := rfl

/-- Models `file_already_processed` (lines 85-88): the lowercased filename of the
path is in the `processed_files` set. -/
def file_already_processed (st : RunState) (file_path : Path) : Bool :=
  to_lower (fileName file_path) ∈ st.processed_files

/-- Models `processed_files.insert(...)` (line 196): a `std::set` insert is a
no-op when the element is present. -/
def insertProcessed (st : RunState) (name : ByteStr) : RunState :=
  if name ∈ st.processed_files then st
  else { st with processed_files := name :: st.processed_files }

/-- Models `create_parent_directories` (lines 98-100):
`fs::create_directories(file_path.parent_path())`; throws on a faulted
parent path, otherwise succeeds (directories carry no content here). -/
def create_parent_directories (st : RunState) (file_path : Path) :
    Except (FsErr × RunState) RunState :=
  if st.fs.failAt file_path.dropLast then .error (.mkdirFail file_path.dropLast, st)
  else .ok (pushOp st (.mkdirs file_path.dropLast))

/-- Models `fs::copy_file(src, dst)` with default options: throws if the write
faults, if the destination already exists, or if the source is missing;
otherwise writes the source bytes at the destination. -/
def copy_file (st : RunState) (src dst : Path) : Except (FsErr × RunState) RunState :=
  if st.fs.failAt dst then .error (.copyFail dst, st)
  else if st.fs.existsAt dst then .error (.copyExists dst, st)
  else
    match st.fs.contents src with
    | none => .error (.copySrcMissing src, st)
    | some c => .ok (pushOp { st with fs := setContents st.fs dst (some c) } (.copy src dst))

/-- Models `fs::remove(p)`: throws on a faulted path, otherwise deletes the file
(a no-op if there was none). -/
def remove_file (st : RunState) (p : Path) : Except (FsErr × RunState) RunState :=
  if st.fs.failAt p then .error (.removeFail p, st)
  else .ok (pushOp { st with fs := setContents st.fs p none } (.remove p))

/-- The `for` loop of lines 183-191: try indexed names
`destination / stem_<i><ext>` for `i, i+1, ...` with `fuel` iterations
remaining (the source runs `i` from 0 with 999999 iterations); copy at
the first index whose path does not exist and stop; if the iterations run
out, fall through with the state unchanged. -/
def indexed_copy_loop (source destination : Path) (print_info : Bool) :
    Nat → Nat → RunState → Except (FsErr × RunState) RunState
  | _, 0, st => .ok st
  | i, fuel + 1, st =>
    let indexed_dest_path := destination ++ [append_index_to_filename (fileName source) i]
    if st.fs.existsAt indexed_dest_path then
      indexed_copy_loop source destination print_info (i + 1) fuel st
    else
      match copy_file st source indexed_dest_path with
      | .error e => .error e
      | .ok st' => .ok (if print_info then pushLog st' (.moved source indexed_dest_path) else st')

/-- The body of the `try` block of `organize_file` (lines 164-196), up to
but not including the final `processed_files.insert`: create the parent
directories, optionally print the request, then the three collision
branches of lines 174-193. -/
def organize_attempt (st : RunState) (source destination : Path) (print_info : Bool) :
    Except (FsErr × RunState) RunState :=
  let dp := dest_path destination (fileName source)
  match create_parent_directories st dp with
  | .error e => .error e
  | .ok st1 =>
    let st1 := if print_info then pushLog st1 (.request source dp) else st1
    if ¬ st1.fs.existsAt dp then
      match copy_file st1 source dp with
      | .error e => .error e
      | .ok st2 => .ok (if print_info then pushLog st2 (.moved source dp) else st2)
    else if ¬ file_already_processed st1 dp then
      match remove_file st1 dp with
      | .error e => .error e
      | .ok st2 =>
        match copy_file st2 source dp with
        | .error e => .error e
        | .ok st3 => .ok (if print_info then pushLog st3 (.moved source dp) else st3)
    else
      indexed_copy_loop source destination print_info 0 999999 st1

/-- Models `organize_file` (lines 110-200): skip non-audio files; otherwise run
the `try` body; on success insert the lowercased source filename into
`processed_files` (line 196); on a filesystem error print the
`Error copying file` diagnostic (line 198) and return. -/
def organize_file (st : RunState) (source destination : Path) (print_info : Bool) : RunState :=
  if ¬ is_audio_file source then st
  else
    match organize_attempt st source destination print_info with
    | .ok st' => insertProcessed st' (to_lower (fileName source))
    | .error (e, st') => pushLog st' (.errorCopying e)

mutual
/-- A source-directory entry as `fs::directory_iterator` yields it: a
plain file, a listable subdirectory with its entries, or a directory
whose listing throws `fs::filesystem_error` (the catch of lines 213-215). -/
inductive Entry where
  | file (p : Path)
  | sub (es : Entries)
  | badDir (msg : ByteStr)
inductive Entries where
  | nil
  | cons (e : Entry) (rest : Entries)
end

mutual
/-- Models `process_directory` (lines 203-216), the per-entry step: recurse into
directories, `organize_file` on everything else; a directory whose
listing throws is reported on stderr and skipped. -/
def organize_entry (destination : Path) (print_info : Bool) (st : RunState) : Entry → RunState
  | .file p => organize_file st p destination print_info
  | .sub es => process_entries destination print_info st es
  | .badDir m => pushLog st (.errorTraversal m)
def process_entries (destination : Path) (print_info : Bool) (st : RunState) :
    Entries → RunState
  | .nil => st
  | .cons e rest => process_entries destination print_info (organize_entry destination print_info st e) rest
end

/-- The run state `main` starts from: the given filesystem, an empty
`processed_files` set, and empty log and trace. -/
def init_state (fs : FsState) : RunState := ⟨fs, [], [], []⟩

/-- The core of `main` after the prompts (lines 262-264): process the
source tree, then print the final success message unconditionally. -/
def run_organizer (fs : FsState) (src_entries : Entries) (destination : Path)
    (print_info : Bool) : RunState :=
  pushLog (process_entries destination print_info (init_state fs) src_entries) .successMsg

/-! ### The specification's rule table, spec side

`spec_rules`/`firstMatch` transcribe the table of spec §4.1 (ordered
(predicate, category) pairs, first match wins, `Other/Other` default) so
that the source's `if`/`else` chain can be compared against it. -/

def firstMatch : List ((ByteStr → Bool) × (ByteStr × ByteStr)) → ByteStr → ByteStr × ByteStr
  | [], _ => (grpOther, subOther)
  | (p, c) :: rest, f => if p f then c else firstMatch rest f

def spec_rules : List ((ByteStr → Bool) × (ByteStr × ByteStr)) :=
  [ (fun f => occursIn pat808 f, (grpDrums, sub808)),
    (fun f => occursIn patSnare f || occursIn patSnrA f || occursIn patSnrB f,
      (grpDrums, subSnare)),
    (fun f => occursIn patKick f || occursIn patKckA f || occursIn patKckB f,
      (grpDrums, subKick)),
    (fun f => occursIn patClap f || occursIn patClpA f || occursIn patClpB f,
      (grpDrums, subClap)),
    (fun f => occursIn patHat f || occursIn patHtA f || occursIn patHtB f,
      (grpDrums, subHat)),
    (fun f => occursIn patDrum f || occursIn patDrmA f || occursIn patDrmB f,
      (grpDrums, subOther)),
    (fun f => occursIn patLoop f, (grpOther, subLoop)) ]

/-- All seventeen substrings the rule table mentions. -/
def allPatterns : List ByteStr :=
  [pat808, patSnare, patSnrA, patSnrB, patKick, patKckA, patKckB,
   patClap, patClpA, patClpB, patHat, patHtA, patHtB,
   patDrum, patDrmA, patDrmB, patLoop]

/-! ### Derived observations used by the statements -/

/-- An empty, fault-free filesystem, used by concrete instances. -/
def plainFs : FsState := ⟨fun _ => none, fun _ => false⟩

/-- Some file whose lowercased filename is `name` was successfully copied
somewhere during the run (copies are traced only on success). -/
def copyOfName (tr : List FsOp) (name : ByteStr) : Prop :=
  ∃ s d, FsOp.copy s d ∈ tr ∧ to_lower (fileName s) = name

/-- The registry invariant of spec §3: a lowercased filename is in
`processed_files` iff at least one file with that base name has been
successfully copied to some destination in this run. -/
def RegistryInv (st : RunState) : Prop :=
  ∀ name, name ∈ st.processed_files ↔ copyOfName st.trace name

mutual
/-- Traversal order of `process_directory`: the files it hands to
`organize_file` (`Sum.inl`) and the unreadable directories it reports
(`Sum.inr`), depth-first and left to right. -/
def entryWalk : Entry → List (Path ⊕ ByteStr)
  | .file p => [Sum.inl p]
  | .sub es => entriesWalk es
  | .badDir m => [Sum.inr m]
def entriesWalk : Entries → List (Path ⊕ ByteStr)
  | .nil => []
  | .cons e rest => entryWalk e ++ entriesWalk rest
end

mutual
/-- All file paths in a source tree, at any depth. -/
def entryFiles : Entry → List Path
  | .file p => [p]
  | .sub es => entriesFiles es
  | .badDir _ => []
def entriesFiles : Entries → List Path
  | .nil => []
  | .cons e rest => entryFiles e ++ entriesFiles rest
end

/-- Processing one element of the traversal order. -/
def walkStep (destination : Path) (print_info : Bool) (st : RunState) :
    Path ⊕ ByteStr → RunState
  | .inl p => organize_file st p destination print_info
  | .inr m => pushLog st (.errorTraversal m)

/-- The optional `Request:` block of lines 167-171. -/
def stepReq (pi : Bool) (src dp : Path) (st : RunState) : RunState :=
  if pi then pushLog st (.request src dp) else st

/-- The optional `Moved:` block printed after a successful copy. -/
def stepMoved (pi : Bool) (src dp : Path) (st : RunState) : RunState :=
  if pi then pushLog st (.moved src dp) else st

/-- A source file path used by concrete instances: `src/kick.wav`. -/
def srcKick : Path := [str ['s', 'r', 'c'], str ['k', 'i', 'c', 'k', '.', 'w', 'a', 'v']]

/-- A destination root used by concrete instances: `dst`. -/
def dstRoot : Path := [str ['d', 's', 't']]

/-- A one-file, fault-free filesystem: `src/kick.wav` holds content 7. -/
def oneFileFs : FsState :=
  ⟨fun p => if p = srcKick then some 7 else none, fun _ => false⟩

/-- A fault-free filesystem in which every path whatsoever is occupied. -/
def fullFs : FsState := ⟨fun _ => some 0, fun _ => false⟩

/-- A filesystem holding `src/kick.wav` on which every write throws. -/
def faultyFs : FsState := ⟨fun p => if p = srcKick then some 7 else none, fun _ => true⟩

/-- A filesystem for an intra-run duplicate: the source `src/kick.wav`
exists, and `dst/Drums/Kick/kick.wav` is already occupied. -/
def dupRunFs : FsState :=
  ⟨fun p =>
    if p = srcKick then some 7
    else if p = dest_path dstRoot (str ['k', 'i', 'c', 'k', '.', 'w', 'a', 'v']) then some 8
    else none,
   fun _ => false⟩

/-- A run state mid-run: `kick.wav` is already registered and its
candidate destination is occupied. -/
def dupRunSt : RunState := ⟨dupRunFs, [str ['k', 'i', 'c', 'k', '.', 'w', 'a', 'v']], [], []⟩

/-- A run state in which `kick.wav` is already registered and every
destination path is occupied, so the indexed search must exhaust. -/
def exhaustedSt : RunState :=
  ⟨fullFs, [str ['k', 'i', 'c', 'k', '.', 'w', 'a', 'v']], [], []⟩

/-- Whether `root` is a leading segment list of `p` (whether `p` lies at
or under `root` in the directory tree). -/
def hasRoot : Path → Path → Bool
  | [], _ => true
  | _ :: _, [] => false
  | r :: rs, q :: qs => r == q && hasRoot rs qs

/-- The indexed candidate path of lines 184-185:
`destination / append_index_to_filename(source.filename(), n)` — one
segment directly under the destination root. -/
def idxPath (destination source : Path) (n : Nat) : Path :=
  destination ++ [append_index_to_filename (fileName source) n]

/-! ### Basic lemmas -/

lemma lowerByte_idem (b : Nat) : lowerByte (lowerByte b) = lowerByte b := by
  simp only [lowerByte]
  split
  · rename_i h
    rw [if_neg (by omega)]
  · rfl

lemma to_lower_idem (s : ByteStr) : to_lower (to_lower s) = to_lower s := by
  simp only [to_lower, List.map_map]
  exact List.map_congr_left fun b _ => lowerByte_idem b

lemma hasRoot_append (r s : Path) : hasRoot r (r ++ s) = true := by
  induction r with
  | nil => rfl
  | cons a rs ih => simp [hasRoot, ih]

lemma ne_append_of_not_hasRoot {root q : Path} (l : Path)
    (h : hasRoot root q = false) : q ≠ root ++ l := by
  intro hq
  rw [hq, hasRoot_append] at h
  exact Bool.true_eq_false.mp h

lemma fileName_dest_path (destination : Path) (fn : ByteStr) :
    fileName (dest_path destination fn) = fn := by
  have : dest_path destination fn
      = (destination ++ [(classify fn).1, (classify fn).2]) ++ [fn] := by
    simp [dest_path]
  rw [this, fileName, List.getLastD_concat]

@[simp] lemma insertProcessed_fs (st : RunState) (n : ByteStr) :
    (insertProcessed st n).fs = st.fs := by
  unfold insertProcessed; split <;> rfl

@[simp] lemma insertProcessed_log (st : RunState) (n : ByteStr) :
    (insertProcessed st n).log = st.log := by
  unfold insertProcessed; split <;> rfl

@[simp] lemma insertProcessed_trace (st : RunState) (n : ByteStr) :
    (insertProcessed st n).trace = st.trace := by
  unfold insertProcessed; split <;> rfl

lemma mem_insertProcessed (st : RunState) (k a : ByteStr) :
    a ∈ (insertProcessed st k).processed_files ↔ a = k ∨ a ∈ st.processed_files := by
  unfold insertProcessed
  split
  · rename_i hk
    constructor
    · exact fun h => Or.inr h
    · rintro (rfl | h)
      · exact hk
      · exact h
  · simp [List.mem_cons]

lemma insertProcessed_self (st : RunState) (k : ByteStr) :
    k ∈ (insertProcessed st k).processed_files :=
  (mem_insertProcessed st k k).mpr (Or.inl rfl)

lemma insertProcessed_of_mem (st : RunState) (k a : ByteStr)
    (h : a ∈ st.processed_files) : a ∈ (insertProcessed st k).processed_files :=
  (mem_insertProcessed st k a).mpr (Or.inr h)

lemma insertProcessed_eq_of_mem (st : RunState) (k : ByteStr)
    (h : k ∈ st.processed_files) : insertProcessed st k = st := by
  unfold insertProcessed
  exact if_pos h

@[simp] lemma setContents_self (fs : FsState) (p : Path) (c : Option Nat) :
    (setContents fs p c).contents p = c := by
  simp [setContents]

lemma setContents_other (fs : FsState) (p q : Path) (c : Option Nat) (h : q ≠ p) :
    (setContents fs p c).contents q = fs.contents q := by
  simp [setContents, h]

@[simp] lemma setContents_failAt (fs : FsState) (p : Path) (c : Option Nat) :
    (setContents fs p c).failAt = fs.failAt := rfl

/-! ### The indexed-rename loop -/

/-- When every indexed candidate the loop can reach (indices `i` through
`i + fuel - 1`) exists, the loop of lines 183-191 runs out of iterations
and falls through with the state untouched: no copy, no log line, no
error. -/
lemma indexed_copy_loop_exhaust (source destination : Path) (pi : Bool) :
    ∀ (fuel i : Nat) (st : RunState),
      (∀ n, n < i + fuel → st.fs.existsAt (idxPath destination source n) = true) →
      indexed_copy_loop source destination pi i fuel st = .ok st := by
  intro fuel
  induction fuel with
  | zero => intro i st _; rfl
  | succ fuel ih =>
    intro i st h
    have hi : st.fs.existsAt (destination ++ [append_index_to_filename (fileName source) i])
        = true := h i (by omega)
    simp only [indexed_copy_loop, hi, if_true]
    exact ih (i + 1) st (fun n hn => h n (by omega))

/-- When index `n` is the first free candidate (all smaller ones exist)
and the copy there succeeds, the loop copies the source to
`idxPath destination source n` and stops. -/
lemma indexed_copy_loop_first_free (source destination : Path) (pi : Bool) (n c : Nat) :
    ∀ (fuel i : Nat) (st : RunState), i ≤ n → n < i + fuel →
      (∀ m, m < n → st.fs.existsAt (idxPath destination source m) = true) →
      st.fs.existsAt (idxPath destination source n) = false →
      st.fs.failAt (idxPath destination source n) = false →
      st.fs.contents source = some c →
      indexed_copy_loop source destination pi i fuel st =
        .ok (if pi then
              pushLog
                (pushOp { st with fs := setContents st.fs (idxPath destination source n) (some c) }
                  (.copy source (idxPath destination source n)))
                (.moved source (idxPath destination source n))
             else
              pushOp { st with fs := setContents st.fs (idxPath destination source n) (some c) }
                (.copy source (idxPath destination source n))) := by
  intro fuel
  induction fuel with
  | zero => intro i st h1 h2; omega
  | succ fuel ih =>
    intro i st hle hlt hm hn hf hc
    rcases Nat.lt_or_ge i n with hin | hin
    · have hi : st.fs.existsAt (destination ++ [append_index_to_filename (fileName source) i])
          = true := hm i hin
      simp only [indexed_copy_loop, hi, if_true]
      exact ih (i + 1) st (by omega) (by omega) hm hn hf hc
    · have hieq : i = n := Nat.le_antisymm hle hin
      subst hieq
      have hn' : st.fs.existsAt (destination ++ [append_index_to_filename (fileName source) i])
          = false := hn
      have hf' : st.fs.failAt (destination ++ [append_index_to_filename (fileName source) i])
          = false := hf
      simp only [indexed_copy_loop, hn', Bool.false_eq_true, if_false, copy_file, hf', hc,
        idxPath]

/-- Bookkeeping facts about the loop of lines 183-191, for arbitrary
outcomes: an error leaves the state exactly as it was; success never
touches `processed_files`, only appends copies of the source at indexed
destination-root paths to the trace, and never changes a file outside the
destination root. -/
lemma indexed_copy_loop_effects (source destination : Path) (pi : Bool) :
    ∀ (fuel i : Nat) (st : RunState),
      (∀ e st', indexed_copy_loop source destination pi i fuel st = .error (e, st') → st' = st)
      ∧ (∀ st', indexed_copy_loop source destination pi i fuel st = .ok st' →
          st'.processed_files = st.processed_files
          ∧ (∃ ext, st'.trace = st.trace ++ ext
              ∧ ∀ op ∈ ext, ∃ m, op = FsOp.copy source (idxPath destination source m))
          ∧ ∀ q, hasRoot destination q = false → st'.fs.contents q = st.fs.contents q) := by
  intro fuel
  induction fuel with
  | zero =>
    intro i st
    constructor
    · intro e st' h
      simp [indexed_copy_loop] at h
    · intro st' h
      simp only [indexed_copy_loop, Except.ok.injEq] at h
      subst h
      exact ⟨rfl, ⟨[], by simp, by simp⟩, fun q _ => rfl⟩
  | succ fuel ih =>
    intro i st
    cases hex : st.fs.existsAt (destination ++ [append_index_to_filename (fileName source) i]) with
    | true =>
      constructor
      · intro e st' h
        simp only [indexed_copy_loop, hex, if_true] at h
        exact (ih (i + 1) st).1 e st' h
      · intro st' h
        simp only [indexed_copy_loop, hex, if_true] at h
        exact (ih (i + 1) st).2 st' h
    | false =>
      cases hfail : st.fs.failAt (destination ++ [append_index_to_filename (fileName source) i]) with
      | true =>
        constructor
        · intro e st' h
          simp only [indexed_copy_loop, hex, Bool.false_eq_true, if_false, copy_file, hfail,
            if_true, Except.error.injEq, Prod.mk.injEq] at h
          exact h.2.symm
        · intro st' h
          simp only [indexed_copy_loop, hex, Bool.false_eq_true, if_false, copy_file, hfail,
            if_true] at h
          exact Except.noConfusion h
      | false =>
        cases hc : st.fs.contents source with
        | none =>
          constructor
          · intro e st' h
            simp only [indexed_copy_loop, hex, Bool.false_eq_true, if_false, copy_file, hfail,
              hc, Except.error.injEq, Prod.mk.injEq] at h
            exact h.2.symm
          · intro st' h
            simp only [indexed_copy_loop, hex, Bool.false_eq_true, if_false, copy_file, hfail,
              hc] at h
            exact Except.noConfusion h
        | some c =>
          constructor
          · intro e st' h
            simp only [indexed_copy_loop, hex, Bool.false_eq_true, if_false, copy_file, hfail,
              hc] at h
            cases pi <;> simp at h
          · intro st' h
            simp only [indexed_copy_loop, hex, Bool.false_eq_true, if_false, copy_file, hfail,
              hc, Except.ok.injEq] at h
            have hfs : ∀ q, hasRoot destination q = false →
                st'.fs.contents q = st.fs.contents q := by
              intro q hq
              have hne : q ≠ destination ++ [append_index_to_filename (fileName source) i] :=
                ne_append_of_not_hasRoot _ hq
              cases pi <;> simp only [Bool.false_eq_true, if_false, if_true] at h <;>
                subst h <;>
                simp [setContents_other _ _ _ _ hne]
            have hpf : st'.processed_files = st.processed_files := by
              cases pi <;> simp only [Bool.false_eq_true, if_false, if_true] at h <;>
                subst h <;> simp
            have htr : st'.trace = st.trace
                ++ [FsOp.copy source (destination ++ [append_index_to_filename (fileName source) i])] := by
              cases pi <;> simp only [Bool.false_eq_true, if_false, if_true] at h <;>
                subst h <;> simp
            refine ⟨hpf, ⟨[FsOp.copy source (destination ++ [append_index_to_filename (fileName source) i])], htr, ?_⟩, hfs⟩
            intro op hop
            simp only [List.mem_singleton] at hop
            exact ⟨i, by simp [hop, idxPath]⟩

/-! ### The three collision branches, as state transformations -/

/-- Branch 1 (lines 174-176): the candidate destination does not exist,
so the source is copied there and the lowercased source filename is
registered. -/
lemma organize_fresh_result (st : RunState) (source destination : Path) (pi : Bool) (c : Nat)
    (haud : is_audio_file source = true)
    (hpar : st.fs.failAt (dest_path destination (fileName source)).dropLast = false)
    (hne : st.fs.existsAt (dest_path destination (fileName source)) = false)
    (hfail : st.fs.failAt (dest_path destination (fileName source)) = false)
    (hsrc : st.fs.contents source = some c) :
    organize_file st source destination pi =
      insertProcessed
        (stepMoved pi source (dest_path destination (fileName source))
          (pushOp
            { stepReq pi source (dest_path destination (fileName source))
                (pushOp st (.mkdirs (dest_path destination (fileName source)).dropLast)) with
              fs := setContents st.fs (dest_path destination (fileName source)) (some c) }
            (.copy source (dest_path destination (fileName source)))))
        (to_lower (fileName source)) := by
  cases pi <;>
    simp [organize_file, organize_attempt, create_parent_directories, copy_file,
      stepReq, stepMoved, haud, hpar, hne, hfail, hsrc]

/-- Branch 2 (lines 177-181): the candidate exists but the name is not
yet registered, so the occupant is removed and replaced by a fresh copy,
and the name is then registered. -/
lemma organize_overwrite_result (st : RunState) (source destination : Path) (pi : Bool) (c : Nat)
    (haud : is_audio_file source = true)
    (hpar : st.fs.failAt (dest_path destination (fileName source)).dropLast = false)
    (hex : st.fs.existsAt (dest_path destination (fileName source)) = true)
    (hnp : to_lower (fileName source) ∉ st.processed_files)
    (hfail : st.fs.failAt (dest_path destination (fileName source)) = false)
    (hsd : source ≠ dest_path destination (fileName source))
    (hsrc : st.fs.contents source = some c) :
    organize_file st source destination pi =
      insertProcessed
        (stepMoved pi source (dest_path destination (fileName source))
          (pushOp
            { pushOp
                { stepReq pi source (dest_path destination (fileName source))
                    (pushOp st (.mkdirs (dest_path destination (fileName source)).dropLast)) with
                  fs := setContents st.fs (dest_path destination (fileName source)) none }
                (.remove (dest_path destination (fileName source))) with
              fs := setContents (setContents st.fs (dest_path destination (fileName source)) none)
                      (dest_path destination (fileName source)) (some c) }
            (.copy source (dest_path destination (fileName source)))))
        (to_lower (fileName source)) := by
  have hsrc2 : (setContents st.fs (dest_path destination (fileName source)) none).contents source
      = some c := by
    rw [setContents_other _ _ _ _ hsd]; exact hsrc
  have hex2 : (setContents st.fs (dest_path destination (fileName source)) none).existsAt
      (dest_path destination (fileName source)) = false := by
    simp [FsState.existsAt]
  cases pi <;>
    simp [organize_file, organize_attempt, create_parent_directories, copy_file, remove_file,
      stepReq, stepMoved, file_already_processed, fileName_dest_path,
      haud, hpar, hex, hex2, hnp, hfail, hsrc2]

/-- Under the branch 3 guards (candidate exists and name registered), the
try body is exactly the indexed-rename loop started at index 0 with
999999 iterations available. -/
lemma organize_attempt_indexed (st : RunState) (source destination : Path) (pi : Bool)
    (hpar : st.fs.failAt (dest_path destination (fileName source)).dropLast = false)
    (hex : st.fs.existsAt (dest_path destination (fileName source)) = true)
    (hp : to_lower (fileName source) ∈ st.processed_files) :
    organize_attempt st source destination pi =
      indexed_copy_loop source destination pi 0 999999
        (stepReq pi source (dest_path destination (fileName source))
          (pushOp st (.mkdirs (dest_path destination (fileName source)).dropLast))) := by
  cases pi <;>
    simp [organize_attempt, create_parent_directories, stepReq,
      file_already_processed, fileName_dest_path, hpar, hex, hp]

/-- Branch 3 (lines 182-192) at the first free index `n`: the source is
copied to `destination / stem_<n><ext>` — directly under the destination
root — and the (already registered) name is re-inserted, a no-op. -/
lemma organize_indexed_result (st : RunState) (source destination : Path) (pi : Bool) (n c : Nat)
    (haud : is_audio_file source = true)
    (hpar : st.fs.failAt (dest_path destination (fileName source)).dropLast = false)
    (hex : st.fs.existsAt (dest_path destination (fileName source)) = true)
    (hp : to_lower (fileName source) ∈ st.processed_files)
    (hn : n < 999999)
    (hm : ∀ m, m < n → st.fs.existsAt (idxPath destination source m) = true)
    (hfree : st.fs.existsAt (idxPath destination source n) = false)
    (hif : st.fs.failAt (idxPath destination source n) = false)
    (hsrc : st.fs.contents source = some c) :
    organize_file st source destination pi =
      insertProcessed
        (stepMoved pi source (idxPath destination source n)
          (pushOp
            { stepReq pi source (dest_path destination (fileName source))
                (pushOp st (.mkdirs (dest_path destination (fileName source)).dropLast)) with
              fs := setContents st.fs (idxPath destination source n) (some c) }
            (.copy source (idxPath destination source n))))
        (to_lower (fileName source)) := by
  have hatt := organize_attempt_indexed st source destination pi hpar hex hp
  cases pi
  case false =>
    have hloop := indexed_copy_loop_first_free source destination false n c 999999 0
        (pushOp st (.mkdirs (dest_path destination (fileName source)).dropLast))
        (Nat.zero_le n) (by omega) hm hfree hif hsrc
    simp only [stepReq, Bool.false_eq_true, if_false] at hatt
    simp [organize_file, haud, hatt, hloop, stepReq, stepMoved]
  case true =>
    have hloop := indexed_copy_loop_first_free source destination true n c 999999 0
        (pushLog (pushOp st (.mkdirs (dest_path destination (fileName source)).dropLast))
          (.request source (dest_path destination (fileName source))))
        (Nat.zero_le n) (by omega) hm hfree hif hsrc
    simp only [stepReq, if_true] at hatt
    simp [organize_file, haud, hatt, hloop, stepReq, stepMoved]

/-- Branch 3 when every indexed candidate the bounded search examines
(indices 0 through 999998) already exists: the loop exhausts its 999999
iterations and the call falls through — no copy, no registry change, no
error; only the directory creation and the optional `Request:` print took
place. -/
lemma organize_exhaust_result (st : RunState) (source destination : Path) (pi : Bool)
    (haud : is_audio_file source = true)
    (hpar : st.fs.failAt (dest_path destination (fileName source)).dropLast = false)
    (hex : st.fs.existsAt (dest_path destination (fileName source)) = true)
    (hp : to_lower (fileName source) ∈ st.processed_files)
    (hall : ∀ n, n < 999999 → st.fs.existsAt (idxPath destination source n) = true) :
    organize_file st source destination pi =
      stepReq pi source (dest_path destination (fileName source))
        (pushOp st (.mkdirs (dest_path destination (fileName source)).dropLast)) := by
  have hatt := organize_attempt_indexed st source destination pi hpar hex hp
  cases pi
  case false =>
    have hloop := indexed_copy_loop_exhaust source destination false 999999 0
        (pushOp st (.mkdirs (dest_path destination (fileName source)).dropLast))
        (fun n hn => hall n (by omega))
    simp only [stepReq, Bool.false_eq_true, if_false] at hatt
    simp only [organize_file, haud, hatt, hloop, stepReq, Bool.not_true, not_false_eq_true,
      Bool.false_eq_true, if_false]
    exact insertProcessed_eq_of_mem _ _ hp
  case true =>
    have hloop := indexed_copy_loop_exhaust source destination true 999999 0
        (pushLog (pushOp st (.mkdirs (dest_path destination (fileName source)).dropLast))
          (.request source (dest_path destination (fileName source))))
        (fun n hn => hall n (by omega))
    simp only [stepReq, if_true] at hatt
    simp only [organize_file, haud, hatt, hloop, stepReq, Bool.not_true, not_false_eq_true,
      Bool.false_eq_true, if_true, if_false]
    exact insertProcessed_eq_of_mem _ _ hp

/-! ### Bookkeeping over every branch of the try body -/

/-- Joint bookkeeping facts about the try-block body (lines 164-193),
over every branch and outcome: it never touches `processed_files`; the
trace only grows, its new copies always have the processed source as
their copy source, and its new removes only ever target the candidate
destination; file contents outside the destination root are untouched.
On an error no new copy was performed; on success, if the lowercased
filename was not yet registered, a copy of the source is in the trace. -/
lemma organize_attempt_effects (st : RunState) (source destination : Path) (pi : Bool) :
    (∀ e st', organize_attempt st source destination pi = .error (e, st') →
        st'.processed_files = st.processed_files
        ∧ (∃ ext, st'.trace = st.trace ++ ext
            ∧ (∀ s d, FsOp.copy s d ∉ ext)
            ∧ (∀ p, FsOp.remove p ∈ ext → p = dest_path destination (fileName source)))
        ∧ (∀ q, hasRoot destination q = false → st'.fs.contents q = st.fs.contents q))
    ∧ (∀ st', organize_attempt st source destination pi = .ok st' →
        st'.processed_files = st.processed_files
        ∧ (∃ ext, st'.trace = st.trace ++ ext
            ∧ (∀ s d, FsOp.copy s d ∈ ext → s = source)
            ∧ (∀ p, FsOp.remove p ∈ ext → p = dest_path destination (fileName source)))
        ∧ (∀ q, hasRoot destination q = false → st'.fs.contents q = st.fs.contents q)
        ∧ (to_lower (fileName source) ∉ st.processed_files →
            ∃ d, FsOp.copy source d ∈ st'.trace)) := by
  constructor
  · intro e st' h
    cases hpar : st.fs.failAt (dest_path destination (fileName source)).dropLast with
    | true =>
      simp [organize_attempt, create_parent_directories, hpar] at h
      obtain ⟨-, h2⟩ := h
      subst h2
      exact ⟨rfl, ⟨[], by simp, by simp, by simp⟩, fun q _ => rfl⟩
    | false =>
      cases hex : st.fs.existsAt (dest_path destination (fileName source)) with
      | false =>
        cases hfail : st.fs.failAt (dest_path destination (fileName source)) with
        | true =>
          cases pi <;>
          · simp [organize_attempt, create_parent_directories, copy_file, hpar, hex,
              hfail] at h
            obtain ⟨-, h2⟩ := h
            subst h2
            exact ⟨rfl, ⟨[FsOp.mkdirs (dest_path destination (fileName source)).dropLast],
              by simp, by simp, by simp⟩, fun q _ => rfl⟩
        | false =>
          cases hc : st.fs.contents source with
          | none =>
            cases pi <;>
            · simp [organize_attempt, create_parent_directories, copy_file, hpar, hex,
                hfail, hc] at h
              obtain ⟨-, h2⟩ := h
              subst h2
              exact ⟨rfl, ⟨[FsOp.mkdirs (dest_path destination (fileName source)).dropLast],
                by simp, by simp, by simp⟩, fun q _ => rfl⟩
          | some c =>
            cases pi <;>
              simp [organize_attempt, create_parent_directories, copy_file, hpar, hex,
                hfail, hc] at h
      | true =>
        by_cases hproc : to_lower (fileName source) ∈ st.processed_files
        · have hatt := organize_attempt_indexed st source destination pi hpar hex hproc
          rw [hatt] at h
          have hst := (indexed_copy_loop_effects source destination pi 999999 0
            (stepReq pi source (dest_path destination (fileName source))
              (pushOp st (.mkdirs (dest_path destination (fileName source)).dropLast)))).1
            e st' h
          subst hst
          refine ⟨by cases pi <;> rfl,
            ⟨[FsOp.mkdirs (dest_path destination (fileName source)).dropLast],
              by cases pi <;> rfl, by simp, by simp⟩, fun q _ => by cases pi <;> rfl⟩
        · have hex' : (st.fs.contents (dest_path destination (fileName source))).isSome
              = true := hex
          cases hfail : st.fs.failAt (dest_path destination (fileName source)) with
          | true =>
            cases pi <;>
            · simp [organize_attempt, create_parent_directories, remove_file,
                file_already_processed, fileName_dest_path, hpar, hex, hfail, hproc] at h
              obtain ⟨-, h2⟩ := h
              subst h2
              exact ⟨rfl, ⟨[FsOp.mkdirs (dest_path destination (fileName source)).dropLast],
                by simp, by simp, by simp⟩, fun q _ => rfl⟩
          | false =>
            by_cases hsd : source = dest_path destination (fileName source)
            · have hcs : (setContents st.fs (dest_path destination (fileName source))
                  none).contents source = none := by
                rw [hsd, fileName_dest_path]; simp
              cases pi <;>
              · simp [organize_attempt, create_parent_directories, remove_file, copy_file,
                  file_already_processed, fileName_dest_path, FsState.existsAt, hpar, hex',
                  hfail, hproc, hcs] at h
                obtain ⟨-, h2⟩ := h
                subst h2
                refine ⟨rfl,
                  ⟨[FsOp.mkdirs (dest_path destination (fileName source)).dropLast,
                    FsOp.remove (dest_path destination (fileName source))],
                    by simp, by simp, by simp⟩, fun q hq => ?_⟩
                have hne : q ≠ dest_path destination (fileName source) :=
                  ne_append_of_not_hasRoot _ hq
                simp [setContents_other _ _ _ _ hne]
            · have hcs : (setContents st.fs (dest_path destination (fileName source))
                  none).contents source = st.fs.contents source :=
                setContents_other _ _ _ _ hsd
              cases hc : st.fs.contents source with
              | none =>
                cases pi <;>
                · simp [organize_attempt, create_parent_directories, remove_file, copy_file,
                    file_already_processed, fileName_dest_path, FsState.existsAt, hpar, hex',
                    hfail, hproc, hcs, hc] at h
                  obtain ⟨-, h2⟩ := h
                  subst h2
                  refine ⟨rfl,
                    ⟨[FsOp.mkdirs (dest_path destination (fileName source)).dropLast,
                      FsOp.remove (dest_path destination (fileName source))],
                      by simp, by simp, by simp⟩, fun q hq => ?_⟩
                  have hne : q ≠ dest_path destination (fileName source) :=
                    ne_append_of_not_hasRoot _ hq
                  simp [setContents_other _ _ _ _ hne]
              | some c =>
                cases pi <;>
                  simp [organize_attempt, create_parent_directories, remove_file, copy_file,
                    file_already_processed, fileName_dest_path, FsState.existsAt, hpar, hex',
                    hfail, hproc, hcs, hc] at h
  · intro st' h
    cases hpar : st.fs.failAt (dest_path destination (fileName source)).dropLast with
    | true =>
      simp [organize_attempt, create_parent_directories, hpar] at h
    | false =>
      cases hex : st.fs.existsAt (dest_path destination (fileName source)) with
      | false =>
        cases hfail : st.fs.failAt (dest_path destination (fileName source)) with
        | true =>
          cases pi <;>
            simp [organize_attempt, create_parent_directories, copy_file, hpar, hex,
              hfail] at h
        | false =>
          cases hc : st.fs.contents source with
          | none =>
            cases pi <;>
              simp [organize_attempt, create_parent_directories, copy_file, hpar, hex,
                hfail, hc] at h
          | some c =>
            cases pi <;>
            · simp [organize_attempt, create_parent_directories, copy_file, hpar, hex,
                hfail, hc] at h
              subst h
              refine ⟨by simp,
                ⟨[FsOp.mkdirs (dest_path destination (fileName source)).dropLast,
                  FsOp.copy source (dest_path destination (fileName source))],
                  by simp, ?_, by simp⟩, fun q hq => ?_,
                fun _ => ⟨dest_path destination (fileName source), by simp⟩⟩
              · intro s d hm
                simp only [List.mem_cons, List.mem_singleton, List.not_mem_nil,
                  or_false] at hm
                rcases hm with hm | hm
                · exact absurd hm (by simp)
                · exact ((FsOp.copy.injEq _ _ _ _).mp hm).1
              · have hne : q ≠ dest_path destination (fileName source) :=
                  ne_append_of_not_hasRoot _ hq
                simp [setContents_other _ _ _ _ hne]
      | true =>
        by_cases hproc : to_lower (fileName source) ∈ st.processed_files
        · have hatt := organize_attempt_indexed st source destination pi hpar hex hproc
          rw [hatt] at h
          obtain ⟨hpf, ⟨ext, htr, hops⟩, hfs⟩ := (indexed_copy_loop_effects source destination
            pi 999999 0 (stepReq pi source (dest_path destination (fileName source))
              (pushOp st (.mkdirs (dest_path destination (fileName source)).dropLast)))).2
            st' h
          have hst1pf : (stepReq pi source (dest_path destination (fileName source))
              (pushOp st (.mkdirs
                (dest_path destination (fileName source)).dropLast))).processed_files
              = st.processed_files := by
            cases pi <;> rfl
          have hst1fs : (stepReq pi source (dest_path destination (fileName source))
              (pushOp st (.mkdirs (dest_path destination (fileName source)).dropLast))).fs
              = st.fs := by
            cases pi <;> rfl
          have hst1tr : (stepReq pi source (dest_path destination (fileName source))
              (pushOp st (.mkdirs (dest_path destination (fileName source)).dropLast))).trace
              = st.trace ++ [FsOp.mkdirs (dest_path destination (fileName source)).dropLast] := by
            cases pi <;> rfl
          refine ⟨by rw [hpf, hst1pf],
            ⟨FsOp.mkdirs (dest_path destination (fileName source)).dropLast :: ext, ?_, ?_, ?_⟩,
            fun q hq => by rw [hfs q hq, hst1fs], fun hnp => absurd hproc hnp⟩
          · rw [htr, hst1tr, List.append_cons, List.append_assoc]
            simp
          · intro s d hsd
            simp only [List.mem_cons] at hsd
            rcases hsd with hsd | hsd
            · exact absurd hsd (by simp)
            · obtain ⟨m, hm⟩ := hops _ hsd
              exact ((FsOp.copy.injEq _ _ _ _).mp hm).1
          · intro p hp
            simp only [List.mem_cons] at hp
            rcases hp with hp | hp
            · exact absurd hp (by simp)
            · obtain ⟨m, hm⟩ := hops _ hp
              exact absurd hm (by simp)
        · have hex' : (st.fs.contents (dest_path destination (fileName source))).isSome
              = true := hex
          cases hfail : st.fs.failAt (dest_path destination (fileName source)) with
          | true =>
            cases pi <;>
              simp [organize_attempt, create_parent_directories, remove_file,
                file_already_processed, fileName_dest_path, hpar, hex, hfail, hproc] at h
          | false =>
            by_cases hsd : source = dest_path destination (fileName source)
            · have hcs : (setContents st.fs (dest_path destination (fileName source))
                  none).contents source = none := by
                rw [hsd, fileName_dest_path]; simp
              cases pi <;>
                simp [organize_attempt, create_parent_directories, remove_file, copy_file,
                  file_already_processed, fileName_dest_path, FsState.existsAt, hpar, hex',
                  hfail, hproc, hcs] at h
            · have hcs : (setContents st.fs (dest_path destination (fileName source))
                  none).contents source = st.fs.contents source :=
                setContents_other _ _ _ _ hsd
              cases hc : st.fs.contents source with
              | none =>
                cases pi <;>
                  simp [organize_attempt, create_parent_directories, remove_file, copy_file,
                    file_already_processed, fileName_dest_path, FsState.existsAt, hpar, hex',
                    hfail, hproc, hcs, hc] at h
              | some c =>
                cases pi <;>
                · simp [organize_attempt, create_parent_directories, remove_file, copy_file,
                    file_already_processed, fileName_dest_path, FsState.existsAt, hpar, hex',
                    hfail, hproc, hcs, hc] at h
                  subst h
                  refine ⟨by simp,
                    ⟨[FsOp.mkdirs (dest_path destination (fileName source)).dropLast,
                      FsOp.remove (dest_path destination (fileName source)),
                      FsOp.copy source (dest_path destination (fileName source))],
                      by simp, ?_, ?_⟩, fun q hq => ?_,
                    fun _ => ⟨dest_path destination (fileName source), by simp⟩⟩
                  · intro s d hm
                    simp only [List.mem_cons, List.mem_singleton, List.not_mem_nil,
                      or_false] at hm
                    rcases hm with hm | hm | hm
                    · exact absurd hm (by simp)
                    · exact absurd hm (by simp)
                    · exact ((FsOp.copy.injEq _ _ _ _).mp hm).1
                  · intro p hp
                    simp only [List.mem_cons, List.mem_singleton, List.not_mem_nil,
                      or_false] at hp
                    rcases hp with hp | hp | hp
                    · exact absurd hp (by simp)
                    · exact (FsOp.remove.injEq _ _).mp hp
                    · exact absurd hp (by simp)
                  · have hne : q ≠ dest_path destination (fileName source) :=
                      ne_append_of_not_hasRoot _ hq
                    simp [setContents_other _ _ _ _ hne]


/-! ### Registry invariant machinery -/

/-- The step `organize_file` preserves the registry invariant, over every branch
and every failure mode. -/
lemma registryInv_organize (st : RunState) (source destination : Path) (pi : Bool)
    (h : RegistryInv st) : RegistryInv (organize_file st source destination pi) := by
  cases haud : is_audio_file source with
  | false =>
    simpa [organize_file, haud] using h
  | true =>
    cases hatt : organize_attempt st source destination pi with
    | error est =>
      obtain ⟨e, st2⟩ := est
      obtain ⟨hpf, ⟨ext, htr, hnocopy, -⟩, -⟩ :=
        (organize_attempt_effects st source destination pi).1 e st2 hatt
      simp only [organize_file, haud, hatt, Bool.not_true, Bool.false_eq_true,
        not_false_eq_true, not_true, eq_self_iff_true, if_false]
      intro name
      rw [pushLog_processed, pushLog_trace, hpf]
      constructor
      · intro hm
        obtain ⟨s, d, hmem, hname⟩ := (h name).mp hm
        exact ⟨s, d, htr ▸ List.mem_append_left _ hmem, hname⟩
      · rintro ⟨s, d, hmem, hname⟩
        rw [htr] at hmem
        rcases List.mem_append.mp hmem with hm | hm
        · exact (h name).mpr ⟨s, d, hm, hname⟩
        · exact absurd hm (hnocopy s d)
    | ok st2 =>
      obtain ⟨hpf, ⟨ext, htr, hcopysrc, -⟩, -, hfresh⟩ :=
        (organize_attempt_effects st source destination pi).2 st2 hatt
      simp only [organize_file, haud, hatt, Bool.not_true, Bool.false_eq_true,
        not_false_eq_true, not_true, eq_self_iff_true, if_false]
      intro name
      rw [insertProcessed_trace]
      constructor
      · intro hm
        rcases (mem_insertProcessed st2 _ name).mp hm with rfl | hm2
        · by_cases hk : to_lower (fileName source) ∈ st.processed_files
          · obtain ⟨s, d, hmem, hname⟩ := (h _).mp hk
            exact ⟨s, d, htr ▸ List.mem_append_left _ hmem, hname⟩
          · obtain ⟨d, hd⟩ := hfresh hk
            exact ⟨source, d, hd, rfl⟩
        · rw [hpf] at hm2
          obtain ⟨s, d, hmem, hname⟩ := (h name).mp hm2
          exact ⟨s, d, htr ▸ List.mem_append_left _ hmem, hname⟩
      · rintro ⟨s, d, hmem, hname⟩
        rw [htr] at hmem
        rcases List.mem_append.mp hmem with hm | hm
        · exact insertProcessed_of_mem _ _ _ (hpf ▸ (h name).mpr ⟨s, d, hm, hname⟩)
        · have hs : s = source := hcopysrc s d hm
          subst hs
          exact hname ▸ insertProcessed_self st2 _

/-- The step `organize_file` never removes a registry entry. -/
lemma organize_processed_mono (st : RunState) (source destination : Path) (pi : Bool)
    (name : ByteStr) (h : name ∈ st.processed_files) :
    name ∈ (organize_file st source destination pi).processed_files := by
  cases haud : is_audio_file source with
  | false => simpa [organize_file, haud] using h
  | true =>
    cases hatt : organize_attempt st source destination pi with
    | error est =>
      obtain ⟨e, st2⟩ := est
      obtain ⟨hpf, -, -⟩ := (organize_attempt_effects st source destination pi).1 e st2 hatt
      simp only [organize_file, haud, hatt, Bool.not_true, Bool.false_eq_true,
        not_false_eq_true, not_true, eq_self_iff_true, if_false, pushLog_processed]
      rw [hpf]
      exact h
    | ok st2 =>
      obtain ⟨hpf, -⟩ := (organize_attempt_effects st source destination pi).2 st2 hatt
      simp only [organize_file, haud, hatt, Bool.not_true, Bool.false_eq_true,
        not_false_eq_true, not_true, eq_self_iff_true, if_false]
      exact insertProcessed_of_mem _ _ _ (hpf ▸ h)

mutual
/-- The registry invariant is preserved by every traversal step. -/
theorem registryInv_entry (destination : Path) (pi : Bool) :
    ∀ (st : RunState) (e : Entry), RegistryInv st →
      RegistryInv (organize_entry destination pi st e)
  | st, .file p, h => registryInv_organize st p destination pi h
  | _, .sub es, h => registryInv_entries destination pi _ es h
  | _, .badDir _, h => h
/-- The registry invariant is preserved by whole-tree processing. -/
theorem registryInv_entries (destination : Path) (pi : Bool) :
    ∀ (st : RunState) (es : Entries), RegistryInv st →
      RegistryInv (process_entries destination pi st es)
  | _, .nil, h => h
  | st, .cons e rest, h =>
    registryInv_entries destination pi _ rest (registryInv_entry destination pi st e h)
end

/-! ### C3: the ProcessedRegistry invariant -/

/-- C3: the registry starts empty, every single processing step and every
whole-tree traversal preserves the invariant that a lowercased filename
is registered iff at least one file with that base name has been
successfully copied to some destination in this run, and no step ever
removes a registry entry. -/
theorem registry_invariant :
    (∀ fs : FsState, (init_state fs).processed_files = [] ∧ RegistryInv (init_state fs))
    ∧ (∀ (st : RunState) (source destination : Path) (pi : Bool), RegistryInv st →
        RegistryInv (organize_file st source destination pi))
    ∧ (∀ (destination : Path) (pi : Bool) (st : RunState) (es : Entries), RegistryInv st →
        RegistryInv (process_entries destination pi st es))
    ∧ (∀ (st : RunState) (source destination : Path) (pi : Bool) (name : ByteStr),
        name ∈ st.processed_files →
        name ∈ (organize_file st source destination pi).processed_files) := by
  refine ⟨fun fs => ⟨rfl, fun name => ?_⟩,
    registryInv_organize, fun destination pi st es h => registryInv_entries destination pi st es h,
    organize_processed_mono⟩
  simp [init_state, copyOfName]

/-- Instance of `registry_invariant` at a concrete input: the invariant holds after
organizing `src/kick.wav` starting from the empty registry. -/
theorem registry_invariant_witness :
    RegistryInv (organize_file (init_state oneFileFs) srcKick dstRoot false) :=
  registry_invariant.2.1 (init_state oneFileFs) srcKick dstRoot false
    (registry_invariant.1 oneFileFs).2

/-! ### Traversal machinery -/

mutual
/-- One traversal step equals folding the per-entry walk. -/
theorem organize_entry_eq_foldl (destination : Path) (pi : Bool) :
    ∀ (st : RunState) (e : Entry),
      organize_entry destination pi st e = (entryWalk e).foldl (walkStep destination pi) st
  | _, .file _ => rfl
  | st, .sub es => process_entries_eq_foldl destination pi st es
  | _, .badDir _ => rfl
/-- Whole-tree processing equals folding the depth-first walk. -/
theorem process_entries_eq_foldl (destination : Path) (pi : Bool) :
    ∀ (st : RunState) (es : Entries),
      process_entries destination pi st es
        = (entriesWalk es).foldl (walkStep destination pi) st
  | _, .nil => rfl
  | st, .cons e rest => by
    show process_entries destination pi (organize_entry destination pi st e) rest
        = (entryWalk e ++ entriesWalk rest).foldl (walkStep destination pi) st
    rw [List.foldl_append, ← organize_entry_eq_foldl destination pi st e]
    exact process_entries_eq_foldl destination pi _ rest
end

mutual
/-- The file elements of the walk are exactly the files of the entry. -/
theorem entryWalk_files :
    ∀ e : Entry, (entryWalk e).filterMap (fun x => x.getLeft?) = entryFiles e
  | .file _ => rfl
  | .sub es => entriesWalk_files es
  | .badDir _ => rfl
/-- The file elements of the walk are exactly the files of the tree. -/
theorem entriesWalk_files :
    ∀ es : Entries, (entriesWalk es).filterMap (fun x => x.getLeft?) = entriesFiles es
  | .nil => rfl
  | .cons e rest => by
    show (entryWalk e ++ entriesWalk rest).filterMap (fun x => x.getLeft?)
        = entryFiles e ++ entriesFiles rest
    rw [List.filterMap_append, entryWalk_files e, entriesWalk_files rest]
end

/-! ### C8: every file visited exactly once -/

/-- C8: processing a source tree is the same as processing its
depth-first walk as a flat list, entry by entry, and the file elements of
that walk are exactly the files of the tree at every nesting depth — so
every file under the source root is discovered and handed to
classification exactly once: none missed, none repeated. -/
theorem traversal_visits_each_file_once :
    (∀ (destination : Path) (pi : Bool) (st : RunState) (es : Entries),
        process_entries destination pi st es
          = (entriesWalk es).foldl (walkStep destination pi) st)
    ∧ (∀ es : Entries, (entriesWalk es).filterMap (fun x => x.getLeft?) = entriesFiles es) :=
  ⟨fun destination pi st es => process_entries_eq_foldl destination pi st es,
   entriesWalk_files⟩

/-! ### C1: the three collision branches -/

/-- C1: for an eligible audio file, collision resolution follows exactly
the three ordered branches of lines 174-193. If the candidate destination
does not exist, the source is copied there and the lowercased source
filename is registered. If it exists but the name is unregistered, the
occupant is deleted and replaced by a fresh copy. If it exists and the
name is registered, indexed names `stem_<n><ext>` (n from 0) are tried
directly under the destination root — not under the category subfolder —
and the file is copied at the first index whose path does not exist. -/
theorem collision_resolution_branches
    (st : RunState) (source destination : Path) (pi : Bool) (c : Nat) (dp : Path) (key : ByteStr)
    (hdp : dp = dest_path destination (fileName source))
    (hkey : key = to_lower (fileName source))
    (haud : is_audio_file source = true)
    (hpar : st.fs.failAt dp.dropLast = false)
    (hsrc : st.fs.contents source = some c) :
    (st.fs.existsAt dp = false → st.fs.failAt dp = false →
      (organize_file st source destination pi).fs.contents dp = some c
      ∧ key ∈ (organize_file st source destination pi).processed_files)
    ∧ (st.fs.existsAt dp = true → key ∉ st.processed_files → st.fs.failAt dp = false →
        source ≠ dp →
      FsOp.remove dp ∈ (organize_file st source destination pi).trace
      ∧ (organize_file st source destination pi).fs.contents dp = some c
      ∧ key ∈ (organize_file st source destination pi).processed_files)
    ∧ (∀ n, st.fs.existsAt dp = true → key ∈ st.processed_files → n < 999999 →
        (∀ m, m < n → st.fs.existsAt (idxPath destination source m) = true) →
        st.fs.existsAt (idxPath destination source n) = false →
        st.fs.failAt (idxPath destination source n) = false →
      (organize_file st source destination pi).fs.contents (idxPath destination source n) = some c
      ∧ key ∈ (organize_file st source destination pi).processed_files) := by
  subst hdp hkey
  refine ⟨fun hne hfail => ?_, fun hex hnp hfail hsd => ?_,
    fun n hex hp hn hm hfree hif => ?_⟩
  · rw [organize_fresh_result st source destination pi c haud hpar hne hfail hsrc]
    refine ⟨?_, insertProcessed_self _ _⟩
    cases pi <;> simp [stepMoved, stepReq]
  · rw [organize_overwrite_result st source destination pi c haud hpar hex hnp hfail hsd hsrc]
    refine ⟨?_, ?_, insertProcessed_self _ _⟩
    · cases pi <;> simp [stepMoved, stepReq]
    · cases pi <;> simp [stepMoved, stepReq]
  · rw [organize_indexed_result st source destination pi n c haud hpar hex hp hn hm hfree hif hsrc]
    refine ⟨?_, insertProcessed_self _ _⟩
    cases pi <;> simp [stepMoved, stepReq]

/-- C1 at a concrete input: organizing `src/kick.wav` (content 7) into an
empty `dst` copies it to `dst/Drums/Kick/kick.wav` and registers
`kick.wav`. -/
theorem collision_resolution_branches_witness :
    (organize_file (init_state oneFileFs) srcKick dstRoot false).fs.contents
        (dest_path dstRoot (fileName srcKick)) = some 7
    ∧ to_lower (fileName srcKick)
        ∈ (organize_file (init_state oneFileFs) srcKick dstRoot false).processed_files :=
  (collision_resolution_branches (init_state oneFileFs) srcKick dstRoot false 7 _ _ rfl rfl
      (by decide) (by decide) (by decide)).1 (by decide) (by decide)

/-! ### C4: exhaustion of the indexed-rename search -/

/-- C4 counterexample: with `kick.wav` registered and every destination
path occupied, the indexed search exhausts all 999999 indices, the file
is left unplaced — and the log stays empty: contrary to the claim, no
error is reported for the file, and nothing marks it failed. -/
theorem collision_exhausted_silent :
    (organize_file exhaustedSt srcKick dstRoot false).log = []
    ∧ (organize_file exhaustedSt srcKick dstRoot false).fs = exhaustedSt.fs
    ∧ (organize_file exhaustedSt srcKick dstRoot false).processed_files
        = exhaustedSt.processed_files := by
  have h := organize_exhaust_result exhaustedSt srcKick dstRoot false (by decide) (by decide)
      (by decide) (by decide) (fun n _ => rfl)
  rw [h]
  exact ⟨rfl, rfl, rfl⟩

/-- C4 (amended): the indexed-rename search is bounded — it examines the
indices 0 through 999998 only, so occupancy of exactly those candidates
exhausts it, whatever holds of any index beyond the bound; for every
placement where it so exhausts without finding an unused path, the file
is left unplaced, but silently: no error is reported and nothing marks
the file failed — the filesystem and the registry are exactly as before,
the log gains only the optional `Request:` print, and processing simply
continues. -/
theorem collision_exhaustion_bounded
    (st : RunState) (source destination : Path) (pi : Bool)
    (haud : is_audio_file source = true)
    (hpar : st.fs.failAt (dest_path destination (fileName source)).dropLast = false)
    (hex : st.fs.existsAt (dest_path destination (fileName source)) = true)
    (hp : to_lower (fileName source) ∈ st.processed_files)
    (hall : ∀ n, n < 999999 → st.fs.existsAt (idxPath destination source n) = true) :
    (organize_file st source destination pi).fs = st.fs
    ∧ (organize_file st source destination pi).processed_files = st.processed_files
    ∧ (organize_file st source destination pi).log = st.log
        ++ (if pi then [LogEvent.request source (dest_path destination (fileName source))]
            else []) := by
  rw [organize_exhaust_result st source destination pi haud hpar hex hp hall]
  cases pi <;> simp [stepReq]

/-- Instance of `collision_exhaustion_bounded` at the concrete exhausting run state. -/
theorem collision_exhaustion_bounded_witness :
    (organize_file exhaustedSt srcKick dstRoot false).fs = exhaustedSt.fs
    ∧ (organize_file exhaustedSt srcKick dstRoot false).processed_files
        = exhaustedSt.processed_files
    ∧ (organize_file exhaustedSt srcKick dstRoot false).log = exhaustedSt.log
        ++ (if false then [LogEvent.request srcKick (dest_path dstRoot (fileName srcKick))]
            else []) :=
  collision_exhaustion_bounded exhaustedSt srcKick dstRoot false (by decide) (by decide)
    (by decide) (by decide) (fun n _ => rfl)

/-! ### C7: case invariance of classification -/

/-- C7: classification is invariant under lowercasing its input —
`classify f = classify (to_lower f)` for every filename, and in
particular `KICK.wav`, `Kick.wav` and `kick.wav` classify identically. -/
theorem classify_case_invariant :
    (∀ f : ByteStr, classify f = classify (to_lower f))
    ∧ classify (str ['K', 'I', 'C', 'K', '.', 'w', 'a', 'v'])
        = classify (str ['k', 'i', 'c', 'k', '.', 'w', 'a', 'v'])
    ∧ classify (str ['K', 'i', 'c', 'k', '.', 'w', 'a', 'v'])
        = classify (str ['k', 'i', 'c', 'k', '.', 'w', 'a', 'v']) := by
  refine ⟨fun f => ?_, by decide, by decide⟩
  simp only [classify, to_lower_idem]

/-! ### C2: rule order -/

/-- C2 counterexample: `snare_kick_loop.wav` contains both `kick` and
`loop`, yet classifies as `Drums/Snare`, not `Drums/Kick` — the higher
priority snare rule fires first, so "a filename containing both kick and
loop yields Drums/Kick" is false as a universal statement. -/
theorem kick_loop_not_always_kick :
    occursIn patKick (to_lower (str ['s', 'n', 'a', 'r', 'e', '_', 'k', 'i', 'c', 'k',
      '_', 'l', 'o', 'o', 'p', '.', 'w', 'a', 'v'])) = true
    ∧ occursIn patLoop (to_lower (str ['s', 'n', 'a', 'r', 'e', '_', 'k', 'i', 'c', 'k',
      '_', 'l', 'o', 'o', 'p', '.', 'w', 'a', 'v'])) = true
    ∧ classify (str ['s', 'n', 'a', 'r', 'e', '_', 'k', 'i', 'c', 'k',
      '_', 'l', 'o', 'o', 'p', '.', 'w', 'a', 'v']) ≠ (grpDrums, subKick) := by
  exact ⟨by decide, by decide, by decide⟩

/-- C2 (amended): classification evaluates exactly the spec's ordered
rule table, first match winning with `Other/Other` as the default; a
filename containing `808` always yields `Drums/808` whatever else it
contains; a filename containing both `kick` and `loop` and none of the
higher-priority substrings (`808`, `snare`, `_snr`, `snr_`) yields
`Drums/Kick`; and a filename containing none of the listed substrings
yields `Other/Other`. -/
theorem classify_rule_order :
    (∀ f : ByteStr, classify f = firstMatch spec_rules (to_lower f))
    ∧ (∀ f : ByteStr, occursIn pat808 (to_lower f) = true → classify f = (grpDrums, sub808))
    ∧ (∀ f : ByteStr, occursIn patKick (to_lower f) = true →
        occursIn patLoop (to_lower f) = true →
        occursIn pat808 (to_lower f) = false →
        occursIn patSnare (to_lower f) = false →
        occursIn patSnrA (to_lower f) = false →
        occursIn patSnrB (to_lower f) = false →
        classify f = (grpDrums, subKick))
    ∧ (∀ f : ByteStr, (∀ pat ∈ allPatterns, occursIn pat (to_lower f) = false) →
        classify f = (grpOther, subOther)) := by
  refine ⟨fun f => rfl, fun f h => ?_, fun f hk hl h8 hs hsa hsb => ?_, fun f h => ?_⟩
  · simp only [classify]
    rw [h]
    rfl
  · simp only [classify]
    rw [h8, hs, hsa, hsb, hk]
    rfl
  · simp only [allPatterns, List.mem_cons, List.not_mem_nil] at h
    simp only [classify]
    rw [h pat808 (by tauto), h patSnare (by tauto), h patSnrA (by tauto),
      h patSnrB (by tauto), h patKick (by tauto), h patKckA (by tauto),
      h patKckB (by tauto), h patClap (by tauto), h patClpA (by tauto),
      h patClpB (by tauto), h patHat (by tauto), h patHtA (by tauto),
      h patHtB (by tauto), h patDrum (by tauto), h patDrmA (by tauto),
      h patDrmB (by tauto), h patLoop (by tauto)]
    rfl

/-- Concrete instances of `classify_rule_order`: `808_kick_loop.wav`
classifies as `Drums/808`, `my_kick_loop.wav` as `Drums/Kick`, and
`song.wav` as `Other/Other`. -/
theorem classify_rule_order_witness :
    classify (str ['8', '0', '8', '_', 'k', 'i', 'c', 'k', '_', 'l', 'o', 'o', 'p',
      '.', 'w', 'a', 'v']) = (grpDrums, sub808)
    ∧ classify (str ['m', 'y', '_', 'k', 'i', 'c', 'k', '_', 'l', 'o', 'o', 'p',
      '.', 'w', 'a', 'v']) = (grpDrums, subKick)
    ∧ classify (str ['s', 'o', 'n', 'g', '.', 'w', 'a', 'v']) = (grpOther, subOther) :=
  ⟨classify_rule_order.2.1 _ (by decide),
   classify_rule_order.2.2.1 _ (by decide) (by decide) (by decide) (by decide)
     (by decide) (by decide),
   classify_rule_order.2.2.2 _ (by decide)⟩

/-! ### C6: the audio-file filter -/

/-- C6: an entry is eligible exactly when its lowercased extension is
`.wav` or `.mp3`, and `organize_file` on any non-audio entry is the
identity on the whole run state — nothing is copied, no path is built,
and no log or error is emitted. -/
theorem audio_filter_spec :
    (∀ (st : RunState) (source destination : Path) (pi : Bool),
        is_audio_file source = false → organize_file st source destination pi = st)
    ∧ (∀ p : Path, is_audio_file p = true ↔
        (to_lower (extension (fileName p)) = str ['.', 'w', 'a', 'v']
         ∨ to_lower (extension (fileName p)) = str ['.', 'm', 'p', '3'])) := by
  constructor
  · intro st source destination pi h
    simp [organize_file, h]
  · intro p
    simp [is_audio_file]

/-- C6 at a concrete input: `kick.txt` is not audio, and organizing it
leaves the run state untouched. -/
theorem audio_filter_spec_witness :
    organize_file (init_state plainFs)
      [str ['k', 'i', 'c', 'k', '.', 't', 'x', 't']] [] false = init_state plainFs :=
  audio_filter_spec.1 _ _ _ _ (by decide)

/-! ### C5: per-file error containment -/

/-- C5: a filesystem failure inside one file's try body is caught on the
spot and becomes exactly one `Error copying file` diagnostic naming the
underlying error, after which `organize_file` returns normally (it is a
total function into `RunState`, so no exception escapes); directory
processing always continues with the remaining entries after any entry;
and the final success message is appended to the log unconditionally,
whatever happened during the run. -/
theorem per_file_error_containment :
    (∀ (st : RunState) (source destination : Path) (pi : Bool) (e : FsErr) (st' : RunState),
        is_audio_file source = true →
        organize_attempt st source destination pi = .error (e, st') →
        organize_file st source destination pi = pushLog st' (.errorCopying e))
    ∧ (∀ (destination : Path) (pi : Bool) (st : RunState) (e : Entry) (rest : Entries),
        process_entries destination pi st (.cons e rest)
          = process_entries destination pi (organize_entry destination pi st e) rest)
    ∧ (∀ (fs : FsState) (src_entries : Entries) (destination : Path) (pi : Bool),
        (run_organizer fs src_entries destination pi).log
          = (process_entries destination pi (init_state fs) src_entries).log
            ++ [LogEvent.successMsg]) := by
  refine ⟨fun st source destination pi e st' haud hatt => ?_, fun _ _ _ _ _ => rfl,
    fun _ _ _ _ => rfl⟩
  simp [organize_file, haud, hatt]

/-- C5 at a concrete input: with every write faulted, organizing
`src/kick.wav` produces exactly the per-file diagnostic and nothing
else. -/
theorem per_file_error_containment_witness :
    organize_file (init_state faultyFs) srcKick dstRoot false
      = pushLog (init_state faultyFs)
          (.errorCopying (.mkdirFail (dest_path dstRoot (fileName srcKick)).dropLast)) :=
  per_file_error_containment.1 _ _ _ _ _ _ (by decide) rfl

/-! ### C9: the source tree is never written -/

/-- Removes issued by one `organize_file` call target the candidate
destination only; contents outside the destination root are untouched. -/
lemma organize_file_frame (st : RunState) (source destination : Path) (pi : Bool) :
    (∀ p, FsOp.remove p ∈ (organize_file st source destination pi).trace →
        FsOp.remove p ∈ st.trace ∨ hasRoot destination p = true)
    ∧ (∀ q, hasRoot destination q = false →
        (organize_file st source destination pi).fs.contents q = st.fs.contents q) := by
  cases haud : is_audio_file source with
  | false =>
    have hid : organize_file st source destination pi = st := by
      simp [organize_file, haud]
    rw [hid]
    exact ⟨fun p hp => Or.inl hp, fun q _ => rfl⟩
  | true =>
    cases hatt : organize_attempt st source destination pi with
    | error est =>
      obtain ⟨e, st2⟩ := est
      obtain ⟨-, ⟨ext, htr, -, hrm⟩, hfs⟩ :=
        (organize_attempt_effects st source destination pi).1 e st2 hatt
      simp only [organize_file, haud, hatt, not_true, eq_self_iff_true, if_false]
      constructor
      · intro p hp
        rw [pushLog_trace, htr] at hp
        rcases List.mem_append.mp hp with hm | hm
        · exact Or.inl hm
        · right
          rw [hrm p hm]
          exact hasRoot_append _ _
      · intro q hq
        rw [pushLog_fs]
        exact hfs q hq
    | ok st2 =>
      obtain ⟨-, ⟨ext, htr, -, hrm⟩, hfs, -⟩ :=
        (organize_attempt_effects st source destination pi).2 st2 hatt
      simp only [organize_file, haud, hatt, not_true, eq_self_iff_true, if_false]
      constructor
      · intro p hp
        rw [insertProcessed_trace, htr] at hp
        rcases List.mem_append.mp hp with hm | hm
        · exact Or.inl hm
        · right
          rw [hrm p hm]
          exact hasRoot_append _ _
      · intro q hq
        rw [insertProcessed_fs]
        exact hfs q hq

mutual
/-- Frame facts for one traversal step. -/
theorem frame_entry (destination : Path) (pi : Bool) :
    ∀ (st : RunState) (e : Entry),
      (∀ p, FsOp.remove p ∈ (organize_entry destination pi st e).trace →
          FsOp.remove p ∈ st.trace ∨ hasRoot destination p = true)
      ∧ (∀ q, hasRoot destination q = false →
          (organize_entry destination pi st e).fs.contents q = st.fs.contents q)
  | st, .file p => organize_file_frame st p destination pi
  | st, .sub es => frame_entries destination pi st es
  | _, .badDir _ => ⟨fun _ hp => Or.inl hp, fun _ _ => rfl⟩
/-- Frame facts for whole-tree processing. -/
theorem frame_entries (destination : Path) (pi : Bool) :
    ∀ (st : RunState) (es : Entries),
      (∀ p, FsOp.remove p ∈ (process_entries destination pi st es).trace →
          FsOp.remove p ∈ st.trace ∨ hasRoot destination p = true)
      ∧ (∀ q, hasRoot destination q = false →
          (process_entries destination pi st es).fs.contents q = st.fs.contents q)
  | _, .nil => ⟨fun _ hp => Or.inl hp, fun _ _ => rfl⟩
  | st, .cons e rest => by
    obtain ⟨h1, h2⟩ := frame_entry destination pi st e
    obtain ⟨h3, h4⟩ := frame_entries destination pi (organize_entry destination pi st e) rest
    refine ⟨fun p hp => ?_, fun q hq => ?_⟩
    · rcases h3 p hp with hm | hm
      · exact h1 p hm
      · exact Or.inr hm
    · show (process_entries destination pi (organize_entry destination pi st e) rest).fs.contents q
          = st.fs.contents q
      rw [h4 q hq]
      exact h2 q hq
end

/-- C9: over any whole run, the only delete operations ever issued
target paths under the destination root, and the contents of every path
not under the destination root — in particular the whole source tree,
which lives outside it — are byte-identical before and after. -/
theorem source_tree_untouched :
    (∀ (destination : Path) (pi : Bool) (st : RunState) (es : Entries) (p : Path),
        FsOp.remove p ∈ (process_entries destination pi st es).trace →
        FsOp.remove p ∈ st.trace ∨ hasRoot destination p = true)
    ∧ (∀ (destination : Path) (pi : Bool) (st : RunState) (es : Entries) (q : Path),
        hasRoot destination q = false →
        (process_entries destination pi st es).fs.contents q = st.fs.contents q) :=
  ⟨fun destination pi st es => (frame_entries destination pi st es).1,
   fun destination pi st es => (frame_entries destination pi st es).2⟩

/-- C9 at a concrete input: after running on the one-file tree, the
source file's bytes are exactly what they were. -/
theorem source_tree_untouched_witness :
    (process_entries dstRoot false (init_state oneFileFs)
        (.cons (.file srcKick) .nil)).fs.contents srcKick
      = (init_state oneFileFs).fs.contents srcKick :=
  source_tree_untouched.2 dstRoot false (init_state oneFileFs)
    (.cons (.file srcKick) .nil) srcKick (by decide)

/-! ### C10: the registry key is the full lowercased filename -/

/-- C10: the registry key is the complete lowercased filename, extension
included: `Kick.WAV` and `kick.wav` share the key `kick.wav`, while
`kick.wav` and `kick.mp3` have distinct keys. Consequently, when a file's
key is already registered and its candidate destination is occupied, the
placement takes the intra-run duplicate (indexed) path — copying to
`stem_<n><ext>` under the destination root and issuing no delete — while
a file whose key is not yet registered (e.g. `kick.mp3` after only
`kick.wav` was placed) takes the overwrite path instead, deleting and
recopying at the candidate itself and copying nowhere else. -/
theorem registry_key_full_filename :
    to_lower (str ['K', 'i', 'c', 'k', '.', 'W', 'A', 'V'])
      = to_lower (str ['k', 'i', 'c', 'k', '.', 'w', 'a', 'v'])
    ∧ to_lower (str ['k', 'i', 'c', 'k', '.', 'w', 'a', 'v'])
      ≠ to_lower (str ['k', 'i', 'c', 'k', '.', 'm', 'p', '3'])
    ∧ (∀ (st : RunState) (source destination : Path) (pi : Bool) (n c : Nat),
        is_audio_file source = true →
        st.fs.failAt (dest_path destination (fileName source)).dropLast = false →
        st.fs.existsAt (dest_path destination (fileName source)) = true →
        to_lower (fileName source) ∈ st.processed_files →
        n < 999999 →
        (∀ m, m < n → st.fs.existsAt (idxPath destination source m) = true) →
        st.fs.existsAt (idxPath destination source n) = false →
        st.fs.failAt (idxPath destination source n) = false →
        st.fs.contents source = some c →
        (organize_file st source destination pi).fs.contents (idxPath destination source n)
            = some c
        ∧ (∀ p, FsOp.remove p ∈ (organize_file st source destination pi).trace →
            FsOp.remove p ∈ st.trace))
    ∧ (∀ (st : RunState) (source destination : Path) (pi : Bool) (c : Nat),
        is_audio_file source = true →
        st.fs.failAt (dest_path destination (fileName source)).dropLast = false →
        st.fs.existsAt (dest_path destination (fileName source)) = true →
        to_lower (fileName source) ∉ st.processed_files →
        st.fs.failAt (dest_path destination (fileName source)) = false →
        source ≠ dest_path destination (fileName source) →
        st.fs.contents source = some c →
        FsOp.remove (dest_path destination (fileName source))
            ∈ (organize_file st source destination pi).trace
        ∧ (∀ s d, FsOp.copy s d ∈ (organize_file st source destination pi).trace →
            FsOp.copy s d ∈ st.trace ∨ d = dest_path destination (fileName source))) := by
  refine ⟨by decide, by decide,
    fun st source destination pi n c haud hpar hex hp hn hm hfree hif hsrc => ?_,
    fun st source destination pi c haud hpar hex hnp hfail hsd hsrc => ?_⟩
  · rw [organize_indexed_result st source destination pi n c haud hpar hex hp hn hm hfree hif
      hsrc]
    constructor
    · cases pi <;> simp [stepMoved, stepReq]
    · intro p hp2
      cases pi <;> simp [stepMoved, stepReq] at hp2 <;> exact hp2
  · rw [organize_overwrite_result st source destination pi c haud hpar hex hnp hfail hsd hsrc]
    constructor
    · cases pi <;> simp [stepMoved, stepReq]
    · intro s d hm
      cases pi <;> simp [stepMoved, stepReq] at hm <;>
        rcases hm with hm | ⟨rfl, rfl⟩ <;>
        first
          | exact Or.inl hm
          | exact Or.inr rfl

/-- Instance of `registry_key_full_filename` at a concrete mid-run state: with
`kick.wav` registered and `dst/Drums/Kick/kick.wav` occupied, a second
`kick.wav` lands at `dst/kick_0.wav`. -/
theorem registry_key_full_filename_witness :
    (organize_file dupRunSt srcKick dstRoot false).fs.contents (idxPath dstRoot srcKick 0)
      = some 7 :=
  (registry_key_full_filename.2.2.1 dupRunSt srcKick dstRoot false 0 7 (by decide) (by decide)
    (by decide) (by decide) (by omega) (fun m hm => absurd hm (Nat.not_lt_zero m)) (by decide)
    (by decide) (by decide)).1

end Splice
